import Mathlib

/-!
# Verification of SPT_Asset_Editor core logic

A shallow embedding, in Lean 4, of the core (non-GUI) logic of the
SPT_Asset_Editor repository: the backup manager (`src/core/backup_manager.py`),
the assets manager (`src/core/assets_manager.py`), the texture processor
(`src/core/texture_processor.py`) and the image resizer
(`src/utils/image_resizer.py`).

Python strings are modelled as `List Char`; Python `int` as `Int` (or `Nat`
where the source value is manifestly non-negative, e.g. lengths and counts);
file-system facts that the code merely queries (existence of files, whether a
path is a directory, whether a copy succeeds) are modelled as explicit boolean
oracles passed to the embedded functions, so that every embedded function is a
pure, executable Lean definition.
-/

namespace SPT

/-! ## Python string / path primitives -/

/-- Python slice `l[:-k]` for a non-negative `k` (as used in
`cleanup_old_backups`).  Note the Python quirk: `-0 == 0`, so `l[:-0]` is
`l[:0] = []`, not the whole list. -/
def pySliceToNeg (l : List α) (k : Nat) : List α :=
  if k = 0 then [] else l.take (l.length - k)

/-- Python slice `l[-k:]` for a non-negative `k`.  For `k = 0` this is
`l[0:] = l`; for `k > 0` it is the suffix of length `min k (length l)`. -/
def pySliceFromNeg (l : List α) (k : Nat) : List α :=
  if k = 0 then l else l.drop (l.length - k)

/-- Path separator test: the tool runs on Windows paths but also sees
forward-slash paths, and `os.path` accepts both there. -/
def isPathSep (c : Char) : Bool := c == '/' || c == '\\'

/-- Index of the right-most character satisfying `p`, if any
(`str.rfind` in Python, restricted to single-character classes). -/
def rlastIdx (p : Char → Bool) (l : List Char) : Option Nat :=
  (List.range l.length).foldl (fun acc i => if p (l.getD i ' ') then some i else acc) none

/-- `os.path.splitext`: splits a path into `(root, ext)` at the last dot of
the last component, where an extension only counts if some character of the
last component strictly before that dot is not itself a dot (so `".bashrc"`
has no extension).  Mirrors CPython `genericpath._splitext`. -/
def splitext (p : List Char) : List Char × List Char :=
  let sepIdx : Int := match rlastIdx isPathSep p with
    | some i => (i : Int)
    | none => -1
  let dotIdx : Int := match rlastIdx (fun c => c == '.') p with
    | some i => (i : Int)
    | none => -1
  if sepIdx < dotIdx then
    let start := (sepIdx + 1).toNat
    let dotN := dotIdx.toNat
    if (List.range' start (dotN - start)).any (fun i => p.getD i ' ' != '.') then
      (p.take dotN, p.drop dotN)
    else (p, [])
  else (p, [])

/-- `os.path.basename`: everything after the last path separator. -/
def basename (p : List Char) : List Char :=
  match rlastIdx isPathSep p with
  | some i => p.drop (i + 1)
  | none => p

/-- `str.lower()` (ASCII is all that reaches it: extensions). -/
def lowerStr (l : List Char) : List Char := l.map Char.toLower

/-- The extension component of `os.path.splitext`. -/
def pathExt (p : List Char) : List Char := (splitext p).2

/-- `os.path.join dir name` for a relative `name` (the only way the code
calls it): inserts a separator unless `dir` is empty or already ends in
one. -/
def ospathJoin (dir name : List Char) : List Char :=
  if dir = [] then name
  else if isPathSep (dir.getLastD ' ') then dir ++ name
  else dir ++ '/' :: name

/-- Substring test (used to state facts about produced log/error messages):
`containsSub hay needle = true` iff `needle` occurs contiguously in `hay`. -/
def containsSub (hay needle : List Char) : Bool :=
  (List.range (hay.length + 1)).any fun i => (hay.drop i).take needle.length == needle

/-! ## BackupManager.cleanup_old_backups (claim C4)

`backup_manager.py` lines 328-362.  The in-memory history for one path is a
list of backup paths in append order; `fsx` is the `os.path.exists` oracle
used by the per-file deletion loop (a missing file is skipped and not
counted).  The function returns the number of deleted files and the new
history list for that path; entries for other paths are untouched by the
source, so they are not part of the model. -/

def cleanup_old_backups (fsx : List Char → Bool) (backups : List (List Char))
    (keep_count : Nat) : Nat × List (List Char) :=
  if backups = [] then (0, backups)
  else if backups.length ≤ keep_count then (0, backups)
  else
    let toDelete := pySliceToNeg backups keep_count
    ((toDelete.filter fsx).length, pySliceFromNeg backups keep_count)

/-! ## AssetsManager.save_file extension normalization (claim C5)

`assets_manager.py` lines 237-253.  `file_type` is `"assets"` or `"bundle"`
(set by `load_file`); the function returns the normalized output path plus
whether the mismatched-extension warning was printed. -/

def save_file_ext_normalize (file_type : List Char) (output_path : List Char) :
    List Char × Bool :=
  if lowerStr (pathExt output_path) = [] then
    (output_path ++ '.' :: file_type, false)
  else if lowerStr (pathExt output_path) ≠ '.' :: file_type then
    if lowerStr (pathExt output_path) ≠ ".assets".data ∧
       lowerStr (pathExt output_path) ≠ ".bundle".data then
      (output_path ++ '.' :: file_type, true)
    else (output_path, true)
  else (output_path, false)

end SPT

namespace SPT

/-! ## Theorems for C4 -/

/-- C4 (amended): for every path with `n` recorded backups, all of whose
backup files exist on disk, and every `keep_count ≥ 1`,
`cleanup_old_backups` deletes exactly `n - keep_count` files (truncated at
0), returns that count, and leaves as in-memory history exactly the
most-recently-appended `min n keep_count` entries in their original order;
when `n ≤ keep_count` it returns 0 and changes nothing. -/
theorem cleanup_old_backups_spec (fsx : List Char → Bool) (backups : List (List Char))
    (keep_count : Nat) (hk : 1 ≤ keep_count)
    (hex : ∀ b ∈ pySliceToNeg backups keep_count, fsx b = true) :
    (cleanup_old_backups fsx backups keep_count).1 = backups.length - keep_count ∧
    (cleanup_old_backups fsx backups keep_count).2 =
      backups.drop (backups.length - keep_count) ∧
    (cleanup_old_backups fsx backups keep_count).2.length =
      min backups.length keep_count ∧
    (backups.length ≤ keep_count →
      cleanup_old_backups fsx backups keep_count = (0, backups)) := by
  have hfilter : (pySliceToNeg backups keep_count).filter fsx
      = pySliceToNeg backups keep_count := List.filter_eq_self.mpr hex
  by_cases hle : backups.length ≤ keep_count
  · have hres : cleanup_old_backups fsx backups keep_count = (0, backups) := by
      unfold cleanup_old_backups
      by_cases hnil : backups = []
      · simp [hnil]
      · rw [if_neg hnil, if_pos hle]
    rw [hres]
    have h0 : backups.length - keep_count = 0 := by omega
    exact ⟨by simp [h0], by simp [h0], (min_eq_left hle).symm, fun _ => rfl⟩
  · push_neg at hle
    have hnil : backups ≠ [] := by
      intro h
      rw [h] at hle
      simp at hle
    have hk0 : keep_count ≠ 0 := by omega
    have hres : cleanup_old_backups fsx backups keep_count =
        ((pySliceToNeg backups keep_count).length,
          backups.drop (backups.length - keep_count)) := by
      unfold cleanup_old_backups
      rw [if_neg hnil, if_neg (by omega)]
      simp only [hfilter, pySliceFromNeg, if_neg hk0]
    rw [hres]
    refine ⟨?_, rfl, ?_, ?_⟩
    · simp [pySliceToNeg, if_neg hk0]
    · simp
      omega
    · intro h
      omega

/-- Witness for `cleanup_old_backups_spec` at a concrete 8-entry history
with `keep_count = 5` (the spec's own example scenario). -/
theorem cleanup_old_backups_spec_witness :
    (cleanup_old_backups (fun _ => true)
      [['a'], ['b'], ['c'], ['d'], ['e'], ['f'], ['g'], ['h']] 5).1 = 3 ∧
    (cleanup_old_backups (fun _ => true)
      [['a'], ['b'], ['c'], ['d'], ['e'], ['f'], ['g'], ['h']] 5).2 =
      [['d'], ['e'], ['f'], ['g'], ['h']] := by
  have h := cleanup_old_backups_spec (fun _ => true)
    [['a'], ['b'], ['c'], ['d'], ['e'], ['f'], ['g'], ['h']] 5
    (by decide) (by decide)
  constructor
  · rw [h.1]
    decide
  · rw [h.2.1]
    decide

/-- C4 counterexample: with one recorded (and existing) backup and
`keep_count = 0` the claim demands `max 0 (1 - 0) = 1` deletion and an empty
remaining history, but — because Python's `backups[:-0]` is the empty slice —
the code deletes nothing and keeps the full history, returning 0. -/
theorem cleanup_old_backups_keep_zero_cex :
    ((cleanup_old_backups (fun _ => true) [['a']] 0).1 = 0 ∧
     (cleanup_old_backups (fun _ => true) [['a']] 0).2 = [['a']]) ∧
    ¬ ((cleanup_old_backups (fun _ => true) [['a']] 0).1 = max 0 (1 - 0) ∧
       (cleanup_old_backups (fun _ => true) [['a']] 0).2.length = min 1 0) := by
  decide

/-! ## Theorems for C5 -/

/-- C5: `save_file` normalizes the output path against the loaded archive
kind: no extension → the expected extension is appended; a different but
recognized extension (`.assets`/`.bundle`) → path unchanged, only the
warning is emitted; an unrecognized extension → the expected extension is
appended; the matching extension → path unchanged, no warning. -/
theorem save_file_ext_normalize_spec (file_type output_path : List Char)
    (hft : file_type = "assets".data ∨ file_type = "bundle".data) :
    (lowerStr (pathExt output_path) = [] →
      save_file_ext_normalize file_type output_path =
        (output_path ++ '.' :: file_type, false)) ∧
    ((lowerStr (pathExt output_path) = ".assets".data ∨
      lowerStr (pathExt output_path) = ".bundle".data) →
      lowerStr (pathExt output_path) ≠ '.' :: file_type →
      save_file_ext_normalize file_type output_path = (output_path, true)) ∧
    (lowerStr (pathExt output_path) ≠ [] →
      lowerStr (pathExt output_path) ≠ ".assets".data →
      lowerStr (pathExt output_path) ≠ ".bundle".data →
      save_file_ext_normalize file_type output_path =
        (output_path ++ '.' :: file_type, true)) ∧
    (lowerStr (pathExt output_path) = '.' :: file_type →
      save_file_ext_normalize file_type output_path = (output_path, false)) := by
  unfold save_file_ext_normalize
  refine ⟨?_, ?_, ?_, ?_⟩
  · intro h
    rw [if_pos h]
  · intro hrec hne
    have hnil : lowerStr (pathExt output_path) ≠ [] := by
      rcases hrec with h | h <;> simp [h]
    rw [if_neg hnil, if_pos hne, if_neg]
    push_neg
    intro h1
    rcases hrec with h | h
    · exact absurd h h1
    · exact h
  · intro h1 h2 h3
    have hne : lowerStr (pathExt output_path) ≠ '.' :: file_type := by
      rcases hft with h | h <;> subst h
      · exact h2
      · exact h3
    rw [if_neg h1, if_pos hne, if_pos ⟨h2, h3⟩]
  · intro h
    have hne : ¬ lowerStr (pathExt output_path) = [] := by simp [h]
    rw [if_neg hne, if_neg (by simp [h])]

/-- Witness for `save_file_ext_normalize_spec`: a `.bundle`-typed session
saving to a path with the recognized-but-different extension `.assets`
leaves the path unchanged and only warns. -/
theorem save_file_ext_normalize_spec_witness :
    save_file_ext_normalize "bundle".data "/out/game.assets".data =
      ("/out/game.assets".data, true) := by
  have h := (save_file_ext_normalize_spec "bundle".data "/out/game.assets".data
    (Or.inr rfl)).2.1
  exact h (by decide) (by decide)

/-! ## TextureProcessor.replace_texture (claim C1)

`texture_processor.py` lines 446-521.  The load of the replacement image,
the read of the texture data and the two `data.save()` calls are modelled by
oracles in `ReplaceScenario` (an `Option` error text stands for "this
attempt raised").  The fallback format code written on the second attempt
is the literal `12` (DXT5/BC3).

The concatenated both-errors message on the both-attempts-failed path is a
Python f-string that reads `str(e)` after the end of the `except ... as e`
block.  Python 3 deletes an `except`-clause target when its block exits, so
evaluating that f-string raises `UnboundLocalError`; the error is caught by
the outer `except Exception as e_outer` handler, which reports the
"preparation error" message built from the `UnboundLocalError` text instead,
and returns `False`.  The model reproduces exactly that control flow. -/

inductive PyMode where
  | rgba
  | rgb
  | other
deriving DecidableEq, Repr

structure ReplaceScenario where
  /-- `Image.open(new_image_path)` succeeds. -/
  loadOk : Bool
  /-- `texture_obj.read()` (or the passed-in data) is available. -/
  readOk : Bool
  texName : List Char
  origFormat : Int
  /-- mode of the (possibly resized) replacement image. -/
  newMode : PyMode
  /-- error text of the first `data.save()` attempt, `none` if it succeeds. -/
  firstSaveError : Option (List Char)
  /-- error text of the second (DXT5) `data.save()` attempt. -/
  secondSaveError : Option (List Char)

structure ReplaceOutcome where
  ok : Bool
  /-- number of assign-image-and-save attempts that were started. -/
  saveAttempts : Nat
  /-- value of `data.m_TextureFormat` when the call returns. -/
  finalFormat : Int
  /-- mode of the image assigned by the last attempt. -/
  assignedMode : PyMode
  /-- the error message printed on failure, if any. -/
  printedError : Option (List Char)
deriving DecidableEq, Repr

/-- `TextureFormat.DXT5` (BC3), the hard-coded fallback format code. -/
def dxt5Code : Int := 12

/-- Message text of the `UnboundLocalError` raised when the combined
both-errors f-string evaluates the cleared variable `e`. -/
def unboundLocalMsg : List Char :=
  "cannot access local variable 'e' where it is not associated with a value".data

/-- The outer-handler message `f"텍스처 '{name}' 교체 준비 중 오류: {err}"`. -/
def prepErrorMsg (name err : List Char) : List Char :=
  "텍스처 '".data ++ name ++ "' 교체 준비 중 오류: ".data ++ err

def replace_texture (sc : ReplaceScenario) : ReplaceOutcome :=
  if ¬ sc.loadOk ∨ ¬ sc.readOk then
    ⟨false, 0, sc.origFormat, sc.newMode, some (prepErrorMsg sc.texName [])⟩
  else
    match sc.firstSaveError with
    | none => ⟨true, 1, sc.origFormat, sc.newMode, none⟩
    | some _e1 =>
      match sc.secondSaveError with
      | none => ⟨true, 2, dxt5Code, PyMode.rgba, none⟩
      | some _e2 =>
        ⟨false, 2, dxt5Code, PyMode.rgba,
          some (prepErrorMsg sc.texName unboundLocalMsg)⟩

/-- C1 at the failing input: a scenario where image load and texture read
succeed but both save attempts raise, with recognizable error texts.  The
call retries exactly once under format code 12 and returns `false` — but the
failure message that is actually reported is the preparation-error message
carrying the `UnboundLocalError` text, and it references neither of the two
underlying save errors, contrary to the claim. -/
theorem replace_texture_both_fail_reported_message :
    (replace_texture ⟨true, true, "tex".data, 7, PyMode.rgb,
        some "E1UNIQUE".data, some "E2UNIQUE".data⟩).ok = false ∧
    (replace_texture ⟨true, true, "tex".data, 7, PyMode.rgb,
        some "E1UNIQUE".data, some "E2UNIQUE".data⟩).saveAttempts = 2 ∧
    (replace_texture ⟨true, true, "tex".data, 7, PyMode.rgb,
        some "E1UNIQUE".data, some "E2UNIQUE".data⟩).finalFormat = 12 ∧
    (replace_texture ⟨true, true, "tex".data, 7, PyMode.rgb,
        some "E1UNIQUE".data, some "E2UNIQUE".data⟩).assignedMode = PyMode.rgba ∧
    (replace_texture ⟨true, true, "tex".data, 7, PyMode.rgb,
        some "E1UNIQUE".data, some "E2UNIQUE".data⟩).printedError =
      some (prepErrorMsg "tex".data unboundLocalMsg) ∧
    containsSub (prepErrorMsg "tex".data unboundLocalMsg) "E1UNIQUE".data = false ∧
    containsSub (prepErrorMsg "tex".data unboundLocalMsg) "E2UNIQUE".data = false := by
  decide

/-! ## TextureProcessor preview cache (claims C3, C9)

`texture_processor.py` lines 28-50 and 308-414.  `image_cache` is a Python
dict keyed by `id(texture_data)`; a dict preserves insertion order, updates
keep the original position, and `del` removes one key.  It is modelled as an
ordered association list of `CacheEntry` with no duplicate keys.
`_clear_old_cache_entries` stable-sorts the entries by timestamp and deletes
the keys of the first `len - 30` of them. -/

inductive PixKind where
  /-- decoded image contents, tagged so distinct decodes stay distinct. -/
  | decoded (tag : Nat)
  /-- checkerboard placeholder produced by `_create_placeholder_image`. -/
  | placeholder
deriving DecidableEq, Repr

structure PImage where
  width : Int
  height : Int
  kind : PixKind
deriving DecidableEq, Repr

structure CacheEntry where
  key : Nat
  img : PImage
  ts : Nat
deriving DecidableEq, Repr

def max_cache_size : Nat := 30

/-- Timestamp order used by `sorted(self.image_cache.items(), key=...)`. -/
def tsLE (a b : CacheEntry) : Prop := a.ts ≤ b.ts

instance : DecidableRel tsLE := fun a b => Nat.decLe a.ts b.ts

instance : IsTotal CacheEntry tsLE := ⟨fun a b => Nat.le_total a.ts b.ts⟩

instance : IsTrans CacheEntry tsLE := ⟨fun _ _ _ => Nat.le_trans⟩

/-- Python dict assignment `d[k] = v`: replaces in place if the key exists
(keeping its position), appends otherwise. -/
def dictInsert (k : Nat) (img : PImage) (ts : Nat) : List CacheEntry → List CacheEntry
  | [] => [⟨k, img, ts⟩]
  | e :: es => if e.key = k then ⟨k, img, ts⟩ :: es else e :: dictInsert k img ts es

/-- Python dict lookup `d.get(k)` / `k in d`. -/
def dictLookup (k : Nat) : List CacheEntry → Option (PImage × Nat)
  | [] => none
  | e :: es => if e.key = k then some (e.img, e.ts) else dictLookup k es

/-- `TextureProcessor._clear_old_cache_entries`: no-op while the cache holds
at most 30 entries; otherwise deletes from the dict the keys of the
`len - 30` oldest-timestamp entries (ties resolved by the stable sort). -/
def clear_old_cache_entries (cache : List CacheEntry) : List CacheEntry :=
  if cache.length ≤ max_cache_size then cache
  else
    let sorted := List.insertionSort tsLE cache
    let removedKeys := (sorted.take (cache.length - max_cache_size)).map (·.key)
    cache.filter (fun e => ! removedKeys.contains e.key)

/-- The `texture_data` stand-in seen by `get_texture_preview`: its Python
identity, its `m_Width`/`m_Height` attributes when present (`getattr`
defaults to 256 when absent), and the outcome of `_decode_texture_data`
(`none` means every decode avenue failed or raised). -/
structure TexStand where
  key : Nat
  widthAttr : Option Int
  heightAttr : Option Int
  decodeResult : Option PImage

/-- `TextureProcessor._create_placeholder_image`: a placeholder whose
dimensions are the given ones, with any non-positive dimension replaced by
256.  (The checkerboard drawing and overlay text do not change the canvas
size.) -/
def create_placeholder_image (width height : Int) : PImage :=
  ⟨if width ≤ 0 then 256 else width, if height ≤ 0 then 256 else height,
    PixKind.placeholder⟩

/-- `TextureProcessor.get_texture_preview`: cache hit returns a copy of the
cached image; a successful decode is stored (with the current time) and the
cache is trimmed; a failed decode returns a placeholder sized from the
`m_Width`/`m_Height` attributes (256 for an absent attribute).  All
exceptions inside are caught and also produce the placeholder, so the
function always returns an image. -/
def get_texture_preview (cache : List CacheEntry) (now : Nat) (t : TexStand) :
    PImage × List CacheEntry :=
  match dictLookup t.key cache with
  | some (img, _) => (img, cache)
  | none =>
    match t.decodeResult with
    | some img => (img, clear_old_cache_entries (dictInsert t.key img now cache))
    | none =>
      (create_placeholder_image (t.widthAttr.getD 256) (t.heightAttr.getD 256),
        cache)

/-- Well-formedness preserved by every cache operation: keys are unique
(a Python dict cannot hold a key twice). -/
def NodupKeys (cache : List CacheEntry) : Prop := (cache.map (·.key)).Nodup

theorem dictInsert_length_le (k : Nat) (img : PImage) (ts : Nat) :
    ∀ l : List CacheEntry, (dictInsert k img ts l).length ≤ l.length + 1 := by
  intro l
  induction l with
  | nil => simp [dictInsert]
  | cons e es ih =>
    by_cases h : e.key = k
    · simp [dictInsert, h]
    · simp only [dictInsert, if_neg h, List.length_cons]
      omega

theorem mem_key_dictInsert (k a : Nat) (img : PImage) (ts : Nat) :
    ∀ l : List CacheEntry,
      (a ∈ (dictInsert k img ts l).map (·.key) ↔ a = k ∨ a ∈ l.map (·.key)) := by
  intro l
  induction l with
  | nil => simp [dictInsert]
  | cons e es ih =>
    by_cases h : e.key = k
    · have heq : dictInsert k img ts (e :: es) = ⟨k, img, ts⟩ :: es := by
        simp only [dictInsert]
        rw [if_pos h]
      rw [heq, List.map_cons, List.map_cons, List.mem_cons, List.mem_cons, h]
      tauto
    · have heq : dictInsert k img ts (e :: es) = e :: dictInsert k img ts es := by
        simp only [dictInsert]
        rw [if_neg h]
      rw [heq, List.map_cons, List.map_cons, List.mem_cons, List.mem_cons, ih]
      tauto

theorem nodupKeys_dictInsert (k : Nat) (img : PImage) (ts : Nat) :
    ∀ l : List CacheEntry, NodupKeys l → NodupKeys (dictInsert k img ts l) := by
  intro l
  induction l with
  | nil =>
    intro _
    simp [dictInsert, NodupKeys]
  | cons e es ih =>
    intro h
    rw [NodupKeys, List.map_cons, List.nodup_cons] at h
    by_cases hk : e.key = k
    · rw [NodupKeys]
      simp only [dictInsert, if_pos hk, List.map_cons, List.nodup_cons]
      exact ⟨hk ▸ h.1, h.2⟩
    · rw [NodupKeys]
      simp only [dictInsert, if_neg hk, List.map_cons, List.nodup_cons]
      refine ⟨?_, ih h.2⟩
      rw [mem_key_dictInsert]
      rintro (h1 | h1)
      · exact hk h1
      · exact h.1 h1

theorem clear_old_cache_entries_spec (cache : List CacheEntry) (hnd : NodupKeys cache)
    (hlen : max_cache_size < cache.length) :
    (clear_old_cache_entries cache).length = max_cache_size ∧
    (∀ e ∈ cache, e ∉ clear_old_cache_entries cache →
      ∀ e' ∈ clear_old_cache_entries cache, e.ts ≤ e'.ts) := by
  have hperm : (List.insertionSort tsLE cache).Perm cache :=
    List.perm_insertionSort tsLE cache
  have hsort : List.Sorted tsLE (List.insertionSort tsLE cache) :=
    List.sorted_insertionSort tsLE cache
  unfold NodupKeys at hnd
  have hnds : ((List.insertionSort tsLE cache).map (·.key)).Nodup :=
    ((hperm.map (·.key)).nodup_iff).mpr hnd
  set rem := cache.length - max_cache_size with hrem
  set T := (List.insertionSort tsLE cache).take rem with hT
  set D := (List.insertionSort tsLE cache).drop rem with hD
  have hsplit : T ++ D = List.insertionSort tsLE cache := List.take_append_drop _ _
  set rk := T.map (·.key) with hrk
  set p : CacheEntry → Bool := fun e => ! rk.contains e.key with hp
  have hres : clear_old_cache_entries cache = cache.filter p := by
    unfold clear_old_cache_entries
    rw [if_neg (by omega)]
  have hndTD : (T.map (·.key) ++ D.map (·.key)).Nodup := by
    rw [← List.map_append, hsplit]
    exact hnds
  rw [List.nodup_append] at hndTD
  have hfT : T.filter p = [] := by
    refine List.filter_eq_nil_iff.mpr (fun r hr => ?_)
    have hrk_mem : r.key ∈ rk := List.mem_map_of_mem _ hr
    simp [hp, hrk_mem]
  have hfD : D.filter p = D := by
    refine List.filter_eq_self.mpr (fun d hd => ?_)
    simp only [hp, Bool.not_eq_true']
    have hdk : d.key ∈ D.map (·.key) := List.mem_map_of_mem _ hd
    have : d.key ∉ rk := fun hmem => hndTD.2.2 hmem hdk
    simpa using this
  have hpermD : (cache.filter p).Perm D := by
    have h1 : (cache.filter p).Perm ((List.insertionSort tsLE cache).filter p) :=
      (hperm.symm).filter p
    rw [← hsplit, List.filter_append, hfT, hfD, List.nil_append] at h1
    exact h1
  constructor
  · rw [hres, hpermD.length_eq, hD, List.length_drop, hperm.length_eq]
    omega
  · intro e he hen e' he'
    rw [hres] at hen he'
    have hpe : p e = false := by
      by_contra hcon
      exact hen (List.mem_filter.mpr ⟨he, by revert hcon; cases p e <;> simp⟩)
    have hkey : e.key ∈ rk := by
      simpa [hp, Bool.not_eq_false] using hpe
    obtain ⟨r, hrT, hrk_eq⟩ := List.mem_map.mp hkey
    have hrS : r ∈ List.insertionSort tsLE cache := List.take_subset _ _ hrT
    have heS : e ∈ List.insertionSort tsLE cache := (hperm.mem_iff).mpr he
    have hre : r = e := List.inj_on_of_nodup_map hnds hrS heS hrk_eq
    have heT : e ∈ T := hre ▸ hrT
    have he'D : e' ∈ D := (hpermD.mem_iff).mp he'
    have hpair := hsort
    rw [List.Sorted, ← hsplit, List.pairwise_append] at hpair
    exact hpair.2.2 e heT e' he'D

/-- C9: the decoded-preview cache never exceeds 30 entries after a
`get_texture_preview` call (so, starting from the empty cache, the bound
holds after every call), and when `_clear_old_cache_entries` trims an
oversized cache it removes exactly `len - 30` entries, all of whose
timestamps are at most the timestamp of every surviving entry (i.e. exactly
the oldest-timestamp entries are evicted, the 30 newest kept). -/
theorem preview_cache_bound_spec :
    (∀ (cache : List CacheEntry) (now : Nat) (t : TexStand), NodupKeys cache →
      cache.length ≤ max_cache_size →
      (get_texture_preview cache now t).2.length ≤ max_cache_size ∧
      NodupKeys (get_texture_preview cache now t).2) ∧
    (∀ cache : List CacheEntry, NodupKeys cache → max_cache_size < cache.length →
      (clear_old_cache_entries cache).length = max_cache_size ∧
      (∀ e ∈ cache, e ∉ clear_old_cache_entries cache →
        ∀ e' ∈ clear_old_cache_entries cache, e.ts ≤ e'.ts)) := by
  constructor
  · intro cache now t hnd hlen
    unfold get_texture_preview
    match hcase : dictLookup t.key cache with
    | some (img, ts) => exact ⟨hlen, hnd⟩
    | none =>
      match hdec : t.decodeResult with
      | none => exact ⟨hlen, hnd⟩
      | some img =>
        simp only
        set m := dictInsert t.key img now cache with hm
        have hmlen : m.length ≤ cache.length + 1 := dictInsert_length_le _ _ _ _
        have hmnd : NodupKeys m := nodupKeys_dictInsert _ _ _ _ hnd
        by_cases hle : m.length ≤ max_cache_size
        · rw [clear_old_cache_entries, if_pos hle]
          exact ⟨hle, hmnd⟩
        · push_neg at hle
          have h30 := clear_old_cache_entries_spec m hmnd hle
          refine ⟨le_of_eq h30.1, ?_⟩
          have hsub : (clear_old_cache_entries m).Sublist m := by
            rw [clear_old_cache_entries, if_neg (by omega)]
            exact List.filter_sublist m
          exact List.Nodup.sublist (hsub.map (·.key)) hmnd
  · exact clear_old_cache_entries_spec

/-- Witness for `preview_cache_bound_spec`: concrete instantiations of both
parts — a successful decode into the empty cache keeps the bound, and
trimming a concrete 31-entry cache keeps 30 entries with the single evicted
entry (timestamp 0) no newer than any survivor. -/
theorem preview_cache_bound_spec_witness :
    ((get_texture_preview [] 5 ⟨1, some 4, some 4, some ⟨4, 4, PixKind.decoded 0⟩⟩).2.length
      ≤ max_cache_size) ∧
    (clear_old_cache_entries
      ((List.range 31).map (fun i => ⟨i, ⟨1, 1, PixKind.placeholder⟩, i⟩))).length
      = max_cache_size := by
  constructor
  · exact (preview_cache_bound_spec.1 [] 5 ⟨1, some 4, some 4, some ⟨4, 4, PixKind.decoded 0⟩⟩
      (by unfold NodupKeys; decide) (by decide)).1
  · exact (preview_cache_bound_spec.2
      ((List.range 31).map (fun i => ⟨i, ⟨1, 1, PixKind.placeholder⟩, i⟩))
      (by unfold NodupKeys; decide) (by decide)).1

/-! ## Theorems for C3 -/

/-- C3: `get_texture_preview` is total by construction (it returns an image
for every input); in particular, when decoding fails on a cache miss it
returns the generated placeholder whose dimensions equal the texture's
declared width/height, each dimension falling back to 256 when the declared
value is non-positive (and when the attribute itself is absent), and the
cache is left untouched. -/
theorem get_texture_preview_placeholder (cache : List CacheEntry) (now : Nat)
    (t : TexStand) (hmiss : dictLookup t.key cache = none)
    (hfail : t.decodeResult = none) :
    (get_texture_preview cache now t).1 =
      create_placeholder_image (t.widthAttr.getD 256) (t.heightAttr.getD 256) ∧
    (get_texture_preview cache now t).1.kind = PixKind.placeholder ∧
    (get_texture_preview cache now t).1.width =
      (if t.widthAttr.getD 256 ≤ 0 then 256 else t.widthAttr.getD 256) ∧
    (get_texture_preview cache now t).1.height =
      (if t.heightAttr.getD 256 ≤ 0 then 256 else t.heightAttr.getD 256) ∧
    (∀ w h : Int, t.widthAttr = some w → t.heightAttr = some h → 0 < w → 0 < h →
      (get_texture_preview cache now t).1.width = w ∧
      (get_texture_preview cache now t).1.height = h) ∧
    (get_texture_preview cache now t).2 = cache := by
  have hres : get_texture_preview cache now t =
      (create_placeholder_image (t.widthAttr.getD 256) (t.heightAttr.getD 256),
        cache) := by
    unfold get_texture_preview
    rw [hmiss, hfail]
  rw [hres]
  refine ⟨rfl, rfl, rfl, rfl, ?_, rfl⟩
  intro w h hw hh hwpos hhpos
  rw [hw, hh]
  constructor
  · show (if (w : Int) ≤ 0 then (256 : Int) else w) = w
    rw [if_neg (by omega)]
  · show (if (h : Int) ≤ 0 then (256 : Int) else h) = h
    rw [if_neg (by omega)]

/-- Witness for `get_texture_preview_placeholder`: a texture stand-in with
declared size 512×128 whose decode fails yields a 512×128 placeholder, and
one with a non-positive declared width yields the 256-wide fallback. -/
theorem get_texture_preview_placeholder_witness :
    (get_texture_preview [] 0 ⟨7, some 512, some 128, none⟩).1 =
      ⟨512, 128, PixKind.placeholder⟩ ∧
    (get_texture_preview [] 0 ⟨8, some 0, some 128, none⟩).1.width = 256 := by
  constructor
  · have h := get_texture_preview_placeholder [] 0 ⟨7, some 512, some 128, none⟩
      (by decide) rfl
    rw [h.1]
    decide
  · have h := get_texture_preview_placeholder [] 0 ⟨8, some 0, some 128, none⟩
      (by decide) rfl
    rw [h.2.2.1]
    decide

/-! ## ImageResizer.resize_image staged downscale (claim C6)

`image_resizer.py` lines 76-92.  The staged loop runs while
`current_width > 2*target_width or current_height > 2*target_height`, each
step resizing to `(max (w/2) tw, max (h/2) th)` with `Image.LANCZOS`
(Pillow's high-quality filter) — the source uses `Image.LANCZOS` for every
resize call, staged and final alike.  The loop is embedded with explicit
fuel `w + h + 1`, which exceeds the iteration count: every iteration
strictly decreases `(w - tw) + (h - th)` (truncated subtraction), a
quantity bounded by `w + h`. -/

inductive Resample where
  | nearest
  | bilinear
  | lanczos
deriving DecidableEq, Repr

structure ResizeStep where
  w : Nat
  h : Nat
  filter : Resample
deriving DecidableEq, Repr

/-- The successive sizes produced by the staged-halving `while` loop. -/
def stagedSizesFuel : Nat → Nat → Nat → Nat → Nat → List (Nat × Nat)
  | 0, _, _, _, _ => []
  | fuel + 1, tw, th, cw, ch =>
    if 2 * tw < cw ∨ 2 * th < ch then
      (max (cw / 2) tw, max (ch / 2) th) ::
        stagedSizesFuel fuel tw th (max (cw / 2) tw) (max (ch / 2) th)
    else []

def stagedSizes (tw th sw sh : Nat) : List (Nat × Nat) :=
  stagedSizesFuel (sw + sh + 1) tw th sw sh

/-- The full sequence of `img.resize` calls performed by `resize_image` for
a source of size `sw × sh` and target `tw × th`: the staged steps, then the
final exact resize when the reached size differs from the target. -/
def resize_image_steps (tw th sw sh : Nat) : List ResizeStep :=
  (stagedSizes tw th sw sh).map (fun p => ⟨p.1, p.2, Resample.lanczos⟩) ++
    (if ((stagedSizes tw th sw sh).getLast?.getD (sw, sh)).1 ≠ tw ∨
        ((stagedSizes tw th sw sh).getLast?.getD (sw, sh)).2 ≠ th then
      [⟨tw, th, Resample.lanczos⟩]
    else [])

/-- C6 as stated by the spec: staging happens only when both dimensions
exceed twice the target, and the staged steps use a fast (non-LANCZOS)
resampling filter.  (`Resample.lanczos` is the high-quality filter the spec
reserves for the final approach and exact resize.) -/
def claimC6AsStated (tw th sw sh : Nat) : Prop :=
  (stagedSizes tw th sw sh ≠ [] → 2 * tw < sw ∧ 2 * th < sh) ∧
  (∀ st ∈ (resize_image_steps tw th sw sh).take (stagedSizes tw th sw sh).length,
    st.filter ≠ Resample.lanczos)

theorem stagedSizesFuel_ge_target (tw th : Nat) :
    ∀ (fuel cw ch : Nat), ∀ p ∈ stagedSizesFuel fuel tw th cw ch,
      tw ≤ p.1 ∧ th ≤ p.2 := by
  intro fuel
  induction fuel with
  | zero =>
    intro cw ch p hp
    simp [stagedSizesFuel] at hp
  | succ fuel ih =>
    intro cw ch p hp
    rw [stagedSizesFuel] at hp
    by_cases hc : 2 * tw < cw ∨ 2 * th < ch
    · rw [if_pos hc] at hp
      rcases List.mem_cons.mp hp with h | h
      · subst h
        exact ⟨Nat.le_max_right _ _, Nat.le_max_right _ _⟩
      · exact ih _ _ p h
    · rw [if_neg hc] at hp
      exact absurd hp (List.not_mem_nil p)

theorem stagedSizesFuel_chain (tw th : Nat) :
    ∀ (fuel cw ch : Nat),
      List.Chain' (fun c n => (2 * tw < c.1 ∨ 2 * th < c.2) ∧
          n = (max (c.1 / 2) tw, max (c.2 / 2) th))
        ((cw, ch) :: stagedSizesFuel fuel tw th cw ch) := by
  intro fuel
  induction fuel with
  | zero =>
    intro cw ch
    simp [stagedSizesFuel]
  | succ fuel ih =>
    intro cw ch
    rw [stagedSizesFuel]
    by_cases hc : 2 * tw < cw ∨ 2 * th < ch
    · rw [if_pos hc]
      exact List.chain'_cons.mpr ⟨⟨hc, rfl⟩, ih _ _⟩
    · rw [if_neg hc]
      simp

/-- C6 (amended): for every source `sw × sh` and target `tw × th`:
staging is skipped exactly when the source is already within 2× of the
target in *both* dimensions (the loop runs while *either* dimension exceeds
twice the target — not only while both do); each staged step goes to
`(max (w/2) tw, max (h/2) th)`, so no step shrinks below the target; every
resize step — the staged halving steps included — uses the high-quality
LANCZOS filter (the source has no fast-filter stage); and when the staged
loop leaves a size different from the target, the last step is the exact
resize to `tw × th`, again with LANCZOS. -/
theorem resize_image_steps_spec (tw th sw sh : Nat) :
    (stagedSizes tw th sw sh = [] ↔ (sw ≤ 2 * tw ∧ sh ≤ 2 * th)) ∧
    (∀ p ∈ stagedSizes tw th sw sh, tw ≤ p.1 ∧ th ≤ p.2) ∧
    List.Chain' (fun c n => (2 * tw < c.1 ∨ 2 * th < c.2) ∧
        n = (max (c.1 / 2) tw, max (c.2 / 2) th))
      ((sw, sh) :: stagedSizes tw th sw sh) ∧
    (∀ st ∈ resize_image_steps tw th sw sh, st.filter = Resample.lanczos) ∧
    (((stagedSizes tw th sw sh).getLast?.getD (sw, sh)) ≠ (tw, th) →
      (resize_image_steps tw th sw sh).getLast? =
        some ⟨tw, th, Resample.lanczos⟩) := by
  refine ⟨?_, fun p hp => stagedSizesFuel_ge_target tw th _ sw sh p hp,
    stagedSizesFuel_chain tw th _ sw sh, ?_, ?_⟩
  · unfold stagedSizes
    rw [stagedSizesFuel]
    by_cases hc : 2 * tw < sw ∨ 2 * th < sh
    · rw [if_pos hc]
      constructor
      · intro h
        exact absurd h (List.cons_ne_nil _ _)
      · intro h
        omega
    · rw [if_neg hc]
      constructor
      · intro _
        omega
      · intro _
        rfl
  · intro st hst
    unfold resize_image_steps at hst
    rcases List.mem_append.mp hst with h | h
    · obtain ⟨p, _, hpe⟩ := List.mem_map.mp h
      rw [← hpe]
    · by_cases hc : ((stagedSizes tw th sw sh).getLast?.getD (sw, sh)).1 ≠ tw ∨
          ((stagedSizes tw th sw sh).getLast?.getD (sw, sh)).2 ≠ th
      · rw [if_pos hc] at h
        rcases List.mem_singleton.mp h with h
        rw [h]
      · rw [if_neg hc] at h
        exact absurd h (List.not_mem_nil st)
  · intro hne
    unfold resize_image_steps
    rw [if_pos (by
      by_contra hcon
      push_neg at hcon
      exact hne (Prod.ext_iff.mpr ⟨hcon.1, hcon.2⟩))]
    exact List.getLast?_concat _

/-- Witness for `resize_image_steps_spec`: resizing 10×10 to 1×1 stages
(10 exceeds 2×1) and ends with the exact resize to 1×1 under LANCZOS. -/
theorem resize_image_steps_spec_witness :
    stagedSizes 1 1 10 10 ≠ [] ∧
    (resize_image_steps 1 1 10 10).getLast? = some ⟨1, 1, Resample.lanczos⟩ := by
  constructor
  · decide
  · exact (resize_image_steps_spec 1 1 10 10).2.2.2.2 (by decide)

/-- C6 counterexample: resizing a 1000×100 source to a 100×100 target.  The
staged loop runs (1000 > 200) even though the height, 100, does not exceed
twice the target — so staging is not restricted to "both dimensions exceed
2×" — and every staged step it performs uses the LANCZOS (high-quality)
filter, not a fast one. -/
theorem resize_image_fast_filter_cex : ¬ claimC6AsStated 100 100 1000 100 := by
  intro h
  have h1 := h.1 (by decide)
  exact absurd h1.2 (by decide)

/-! ## Timestamps and lexicographic filename order (claims C7, C10)

`time.strftime("%Y%m%d_%H%M%S")` renders the wall-clock time as a
fixed-width, zero-padded string; backup filenames embed it.  To reason
about "quick succession" honestly, the clock reading is an explicit
`DateTime` argument of the embedded backup functions. -/

/-- Strict lexicographic order on strings (`List Char`), as used when the
claim speaks of "lexically timestamp-ordered" filenames. -/
def lexLt (a b : List Char) : Prop := List.Lex (· < ·) a b

theorem lexLt_append_left (p : List Char) {a b : List Char} (h : lexLt a b) :
    lexLt (p ++ a) (p ++ b) := by
  induction p with
  | nil => exact h
  | cons c cs ih => exact List.Lex.cons ih

theorem lexLt_append_of_eqlen :
    ∀ {a b : List Char}, a.length = b.length → lexLt a b →
      ∀ u v : List Char, lexLt (a ++ u) (b ++ v) := by
  intro a
  induction a with
  | nil =>
    intro b hlen h u v
    cases h with
    | nil => simp at hlen
  | cons c cs ih =>
    intro b hlen h u v
    cases h with
    | rel hr => exact List.Lex.rel hr
    | cons ht =>
      simp only [List.length_cons, Nat.succ.injEq] at hlen
      exact List.Lex.cons (ih hlen ht u v)

theorem ne_of_lexLt : ∀ {a b : List Char}, lexLt a b → a ≠ b := by
  intro a b h
  induction h with
  | nil => exact fun he => List.cons_ne_nil _ _ he.symm
  | rel hr =>
    intro he
    injection he with h1 _
    rw [h1] at hr
    exact absurd hr (lt_irrefl _)
  | cons _ ih =>
    intro he
    injection he with _ h2
    exact ih h2

theorem lexLt_trans : ∀ {a b c : List Char}, lexLt a b → lexLt b c → lexLt a c := by
  intro a b c hab
  induction hab generalizing c with
  | nil =>
    intro hbc
    cases hbc with
    | rel _ => exact List.Lex.nil
    | cons _ => exact List.Lex.nil
  | rel hr =>
    intro hbc
    cases hbc with
    | rel hr2 => exact List.Lex.rel (lt_trans hr hr2)
    | cons _ => exact List.Lex.rel hr
  | cons _ ih =>
    intro hbc
    cases hbc with
    | rel hr2 => exact List.Lex.rel hr2
    | cons ht => exact List.Lex.cons (ih ht)

/-- One decimal digit as a character. -/
def digitChar : Nat → Char
  | 0 => '0'
  | 1 => '1'
  | 2 => '2'
  | 3 => '3'
  | 4 => '4'
  | 5 => '5'
  | 6 => '6'
  | 7 => '7'
  | 8 => '8'
  | _ => '9'

theorem digitChar_lt {a b : Nat} (h : a < b) (hb : b ≤ 9) :
    digitChar a < digitChar b := by
  have ha : a ≤ 8 := by omega
  interval_cases a <;> interval_cases b <;> decide

/-- Two-digit zero-padded rendering (`%m`, `%d`, `%H`, `%M`, `%S`). -/
def digits2 (n : Nat) : List Char := [digitChar (n / 10), digitChar (n % 10)]

/-- Four-digit zero-padded rendering (`%Y` for years below 10000). -/
def digits4 (n : Nat) : List Char := digits2 (n / 100) ++ digits2 (n % 100)

theorem digits2_length (n : Nat) : (digits2 n).length = 2 := rfl

theorem digits4_length (n : Nat) : (digits4 n).length = 4 := rfl

theorem digits2_lt {a b : Nat} (h : a < b) (hb : b < 100) :
    lexLt (digits2 a) (digits2 b) := by
  rcases Nat.lt_or_ge (a / 10) (b / 10) with h1 | h1
  · exact List.Lex.rel (digitChar_lt h1 (by omega))
  · have h2 : a / 10 = b / 10 := by omega
    have h3 : a % 10 < b % 10 := by omega
    rw [digits2, digits2, h2]
    exact List.Lex.cons (List.Lex.rel (digitChar_lt h3 (by omega)))

theorem digits4_lt {a b : Nat} (h : a < b) (hb : b < 10000) :
    lexLt (digits4 a) (digits4 b) := by
  rcases Nat.lt_or_ge (a / 100) (b / 100) with h1 | h1
  · exact lexLt_append_of_eqlen (by rfl) (digits2_lt h1 (by omega)) _ _
  · have h2 : a / 100 = b / 100 := by omega
    have h3 : a % 100 < b % 100 := by omega
    rw [digits4, digits4, h2]
    exact lexLt_append_left _ (digits2_lt h3 (by omega))

/-- A wall-clock reading at second granularity, the inputs of
`time.strftime("%Y%m%d_%H%M%S")`. -/
structure DateTime where
  y : Nat
  mo : Nat
  d : Nat
  h : Nat
  mi : Nat
  s : Nat
deriving DecidableEq, Repr

/-- Field bounds under which the format is fixed-width (every real calendar
reading satisfies them). -/
def DateTime.Valid (t : DateTime) : Prop :=
  t.y < 10000 ∧ t.mo < 100 ∧ t.d < 100 ∧ t.h < 100 ∧ t.mi < 100 ∧ t.s < 100

/-- Chronological (lexicographic field) order of clock readings. -/
def DateTime.Before (a b : DateTime) : Prop :=
  a.y < b.y ∨ (a.y = b.y ∧ (a.mo < b.mo ∨ (a.mo = b.mo ∧ (a.d < b.d ∨ (a.d = b.d ∧
    (a.h < b.h ∨ (a.h = b.h ∧ (a.mi < b.mi ∨ (a.mi = b.mi ∧ a.s < b.s)))))))))

theorem DateTime.Before.trans {a b c : DateTime}
    (h1 : a.Before b) (h2 : b.Before c) : a.Before c := by
  unfold DateTime.Before at *
  omega

/-- `time.strftime("%Y%m%d_%H%M%S", t)`. -/
def fmtTS (t : DateTime) : List Char :=
  digits4 t.y ++ (digits2 t.mo ++ (digits2 t.d ++
    ('_' :: (digits2 t.h ++ (digits2 t.mi ++ digits2 t.s)))))

theorem fmtTS_length (t : DateTime) : (fmtTS t).length = 15 := by
  simp [fmtTS, digits4, digits2]

theorem fmtTS_lt {t u : DateTime} (hu : u.Valid) (h : t.Before u) :
    lexLt (fmtTS t) (fmtTS u) := by
  obtain ⟨hy, hmo, hd, hh, hmi, hs⟩ := hu
  unfold fmtTS
  rcases h with h | ⟨e1, h⟩
  · exact lexLt_append_of_eqlen (by rfl) (digits4_lt h hy) _ _
  · rw [e1]
    apply lexLt_append_left
    rcases h with h | ⟨e2, h⟩
    · exact lexLt_append_of_eqlen (by rfl) (digits2_lt h hmo) _ _
    · rw [e2]
      apply lexLt_append_left
      rcases h with h | ⟨e3, h⟩
      · exact lexLt_append_of_eqlen (by rfl) (digits2_lt h hd) _ _
      · rw [e3]
        apply lexLt_append_left
        apply List.Lex.cons
        rcases h with h | ⟨e4, h⟩
        · exact lexLt_append_of_eqlen (by rfl) (digits2_lt h hh) _ _
        · rw [e4]
          apply lexLt_append_left
          rcases h with h | ⟨e5, h⟩
          · exact lexLt_append_of_eqlen (by rfl) (digits2_lt h hmi) _ _
          · rw [e5]
            apply lexLt_append_left
            exact digits2_lt h hs

/-! ## BackupManager (claims C7, C8, C10)

`backup_manager.py`.  The in-memory state is the backup directory and the
history dict (original path → list of backup paths, in insertion order).
File-system effects are oracles: `fsx` answers `os.path.exists`, `copyOk`
tells whether `shutil.copy2` succeeds. -/

structure BMState where
  backup_dir : List Char
  backup_history : List (List Char × List (List Char))
deriving DecidableEq, Repr

/-- Python dict lookup on the history. -/
def histLookup (k : List Char) : List (List Char × List (List Char)) →
    Option (List (List Char))
  | [] => none
  | (k', vs) :: rest => if k' = k then some vs else histLookup k rest

/-- `if k not in hist: hist[k] = []` followed by `hist[k].append(v)`:
appends to the existing entry in place, or adds a new key at the end. -/
def histAppend (k v : List Char) : List (List Char × List (List Char)) →
    List (List Char × List (List Char))
  | [] => [(k, [v])]
  | (k', vs) :: rest =>
    if k' = k then (k', vs ++ [v]) :: rest else (k', vs) :: histAppend k v rest

theorem histLookup_histAppend (k v : List Char) :
    ∀ hist : List (List Char × List (List Char)),
      histLookup k (histAppend k v hist) =
        some ((histLookup k hist).getD [] ++ [v]) := by
  intro hist
  induction hist with
  | nil => simp [histLookup, histAppend]
  | cons e rest ih =>
    by_cases h : e.1 = k
    · simp [histAppend, histLookup, h]
    · simp [histAppend, histLookup, h, ih]

/-- `BackupManager._is_supported_file`: extension (lower-cased) is
`.assets` or `.bundle`. -/
def is_supported_file (file_path : List Char) : Bool :=
  lowerStr (pathExt file_path) == ".assets".data ||
    lowerStr (pathExt file_path) == ".bundle".data

/-- Filename synthesized by `create_automatic_backup`:
`auto_{basename}_{timestamp}{ext}`. -/
def auto_backup_file_name (file_base file_ext : List Char) (t : DateTime) :
    List Char :=
  "auto_".data ++ file_base ++ "_".data ++ fmtTS t ++ file_ext

/-- Filename synthesized by `create_backup` when no explicit backup path is
given: `{basename}_{timestamp}{ext}`. -/
def manual_backup_file_name (file_base file_ext : List Char) (t : DateTime) :
    List Char :=
  file_base ++ "_".data ++ fmtTS t ++ file_ext

/-- `BackupManager.create_automatic_backup` (lines 186-228): checks only
that the source exists (no extension validation), synthesizes the
`auto_`-prefixed destination inside the configured backup directory from
the current clock reading `t`, copies, appends the destination to the
history keyed by the source path, and returns the backup path; `none` when
the source is missing or the copy raises (in which case the state is
unchanged). -/
def create_automatic_backup (fsx : List Char → Bool) (copyOk : Bool)
    (s : BMState) (file_path : List Char) (t : DateTime) :
    Option (List Char) × BMState :=
  if ¬ fsx file_path then (none, s)
  else
    let file_base := (splitext (basename file_path)).1
    let file_ext := (splitext (basename file_path)).2
    let backup_path :=
      ospathJoin s.backup_dir (auto_backup_file_name file_base file_ext t)
    if ¬ copyOk then (none, s)
    else
      (some backup_path,
        ⟨s.backup_dir, histAppend file_path backup_path s.backup_history⟩)

/-- `BackupManager.create_backup` (lines 121-184): rejects a non-existent
or unsupported-extension source outright; with an explicit backup path it
copies there (after ensuring the parent directory, oracle `parentOk`);
otherwise it synthesizes `{basename}_{timestamp}{ext}` in the backup
directory (after re-validating it, oracle `ensureOk`).  On success the
actually-used destination is appended to the history keyed by the source
path. -/
def create_backup (fsx : List Char → Bool) (copyOk parentOk ensureOk : Bool)
    (s : BMState) (file_path : List Char) (backupPathArg : Option (List Char))
    (t : DateTime) : Option (List Char) × BMState :=
  if ¬ fsx file_path then (none, s)
  else if ¬ is_supported_file file_path then (none, s)
  else
    match backupPathArg with
    | some bp =>
      if ¬ parentOk then (none, s)
      else if ¬ copyOk then (none, s)
      else (some bp, ⟨s.backup_dir, histAppend file_path bp s.backup_history⟩)
    | none =>
      if ¬ ensureOk then (none, s)
      else
        let file_base := (splitext (basename file_path)).1
        let file_ext := (splitext (basename file_path)).2
        let backup_target :=
          ospathJoin s.backup_dir (manual_backup_file_name file_base file_ext t)
        if ¬ copyOk then (none, s)
        else
          (some backup_target,
            ⟨s.backup_dir, histAppend file_path backup_target s.backup_history⟩)

/-- `fnmatch` against a single-star pattern `pre*suf` (the shape of
`auto_{base}_*{ext}` for wildcard-free `base`/`ext`): the name starts with
`pre`, ends with `suf`, and is long enough for the two not to overlap. -/
def globMatchOneStar (pre suf name : List Char) : Bool :=
  decide (pre.length + suf.length ≤ name.length) &&
    (name.take pre.length == pre) &&
    (name.drop (name.length - suf.length) == suf)

theorem globMatchOneStar_concat (pre mid suf : List Char) :
    globMatchOneStar pre suf (pre ++ mid ++ suf) = true := by
  unfold globMatchOneStar
  have hlen : (pre ++ mid ++ suf).length = pre.length + mid.length + suf.length := by
    simp
    omega
  have h1 : (pre ++ mid ++ suf).take pre.length = pre := by
    rw [List.append_assoc]
    exact List.take_left pre (mid ++ suf)
  have h2 : (pre ++ mid ++ suf).drop ((pre ++ mid ++ suf).length - suf.length) = suf := by
    have heq : (pre ++ mid ++ suf).length - suf.length = (pre ++ mid).length := by
      simp
      omega
    rw [heq]
    exact List.drop_left (pre ++ mid) suf
  rw [h1, h2]
  simp [hlen]

/-- `BackupManager.find_initial_backup` (lines 399-465): scans the backup
directory listing (filename, creation time) for names matching
`auto_{base}_*{ext}`, sorts the matches by creation time ascending (a
stable sort), and returns the first, i.e. the first-listed match of
minimal creation time; `none` when nothing matches.  The fold below
computes exactly the head of that stable sort. -/
def find_initial_backup (listing : List (List Char × Nat))
    (file_base file_ext : List Char) : Option (List Char) :=
  match listing.filter (fun f =>
      globMatchOneStar ("auto_".data ++ file_base ++ "_".data) file_ext f.1) with
  | [] => none
  | x :: xs => some ((xs.foldl (fun best y => if y.2 < best.2 then y else best) x).1)

theorem auto_backup_file_name_assoc (file_base file_ext : List Char) (t : DateTime) :
    auto_backup_file_name file_base file_ext t =
      ("auto_".data ++ file_base ++ "_".data) ++ fmtTS t ++ file_ext := by
  simp [auto_backup_file_name]

theorem globMatchOneStar_auto_name (file_base file_ext : List Char) (t : DateTime) :
    globMatchOneStar ("auto_".data ++ file_base ++ "_".data) file_ext
      (auto_backup_file_name file_base file_ext t) = true := by
  rw [auto_backup_file_name_assoc]
  exact globMatchOneStar_concat _ _ _

theorem lexLt_auto_name (file_base file_ext : List Char) {t u : DateTime}
    (hu : u.Valid) (h : t.Before u) :
    lexLt (auto_backup_file_name file_base file_ext t)
      (auto_backup_file_name file_base file_ext u) := by
  have key : lexLt
      (("auto_".data ++ file_base ++ "_".data) ++ (fmtTS t ++ file_ext))
      (("auto_".data ++ file_base ++ "_".data) ++ (fmtTS u ++ file_ext)) :=
    lexLt_append_left _
      (lexLt_append_of_eqlen ((fmtTS_length t).trans (fmtTS_length u).symm)
        (fmtTS_lt hu h) _ _)
  simpa [auto_backup_file_name, List.append_assoc] using key

theorem find_initial_backup_three (file_base file_ext n1 n2 n3 : List Char)
    (c1 c2 c3 : Nat)
    (h1 : globMatchOneStar ("auto_".data ++ file_base ++ "_".data) file_ext n1 = true)
    (h2 : globMatchOneStar ("auto_".data ++ file_base ++ "_".data) file_ext n2 = true)
    (h3 : globMatchOneStar ("auto_".data ++ file_base ++ "_".data) file_ext n3 = true)
    (hc2 : c1 < c2) (hc3 : c1 < c3) :
    find_initial_backup [(n1, c1), (n2, c2), (n3, c3)] file_base file_ext =
      some n1 := by
  have hfil : ([(n1, c1), (n2, c2), (n3, c3)] : List (List Char × Nat)).filter
      (fun f => globMatchOneStar ("auto_".data ++ file_base ++ "_".data)
        file_ext f.1) = [(n1, c1), (n2, c2), (n3, c3)] := by
    refine List.filter_eq_self.mpr ?_
    intro a ha
    rcases List.mem_cons.mp ha with h | ha
    · rw [h]; exact h1
    rcases List.mem_cons.mp ha with h | ha
    · rw [h]; exact h2
    rcases List.mem_cons.mp ha with h | ha
    · rw [h]; exact h3
    · exact absurd ha (List.not_mem_nil a)
  unfold find_initial_backup
  rw [hfil]
  show some ((List.foldl _ (n1, c1) [(n2, c2), (n3, c3)]).1) = some n1
  rw [List.foldl_cons, if_neg (show ¬ (n2, c2).2 < (n1, c1).2 by simp; omega),
    List.foldl_cons, if_neg (show ¬ (n3, c3).2 < (n1, c1).2 by simp; omega),
    List.foldl_nil]

/-- C7 (amended): three `create_automatic_backup` calls for the same
existing source path, *provided the three clock readings render to distinct
timestamps* (i.e. the calls fall in strictly increasing seconds —
`strftime("%Y%m%d_%H%M%S")` collapses calls within one second, see the
counterexample), produce three distinct, lexically timestamp-ordered
filenames, each matching `auto_{basename}_*{ext}`; each call returns that
filename joined to the configured backup directory; and `find_initial_backup`
over those three files returns the one with the earliest creation time. -/
theorem auto_backup_three_calls_spec (file_base file_ext : List Char)
    (t1 t2 t3 : DateTime) (hv2 : t2.Valid) (hv3 : t3.Valid)
    (h12 : t1.Before t2) (h23 : t2.Before t3)
    (c1 c2 c3 : Nat) (hc12 : c1 < c2) (hc23 : c2 < c3) :
    lexLt (auto_backup_file_name file_base file_ext t1)
      (auto_backup_file_name file_base file_ext t2) ∧
    lexLt (auto_backup_file_name file_base file_ext t2)
      (auto_backup_file_name file_base file_ext t3) ∧
    auto_backup_file_name file_base file_ext t1 ≠
      auto_backup_file_name file_base file_ext t2 ∧
    auto_backup_file_name file_base file_ext t2 ≠
      auto_backup_file_name file_base file_ext t3 ∧
    auto_backup_file_name file_base file_ext t1 ≠
      auto_backup_file_name file_base file_ext t3 ∧
    (∀ t ∈ [t1, t2, t3],
      globMatchOneStar ("auto_".data ++ file_base ++ "_".data) file_ext
        (auto_backup_file_name file_base file_ext t) = true) ∧
    find_initial_backup
      [(auto_backup_file_name file_base file_ext t1, c1),
       (auto_backup_file_name file_base file_ext t2, c2),
       (auto_backup_file_name file_base file_ext t3, c3)]
      file_base file_ext = some (auto_backup_file_name file_base file_ext t1) ∧
    (∀ (fsx : List Char → Bool) (s : BMState) (file_path : List Char)
        (t : DateTime), fsx file_path = true →
      (create_automatic_backup fsx true s file_path t).1 =
        some (ospathJoin s.backup_dir
          (auto_backup_file_name (splitext (basename file_path)).1
            (splitext (basename file_path)).2 t))) := by
  have l12 := lexLt_auto_name file_base file_ext hv2 h12
  have l23 := lexLt_auto_name file_base file_ext hv3 h23
  have l13 := lexLt_auto_name file_base file_ext hv3 (h12.trans h23)
  refine ⟨l12, l23, ne_of_lexLt l12, ne_of_lexLt l23, ne_of_lexLt l13, ?_, ?_, ?_⟩
  · intro t ht
    exact globMatchOneStar_auto_name file_base file_ext t
  · exact find_initial_backup_three _ _ _ _ _ _ _ _
      (globMatchOneStar_auto_name file_base file_ext t1)
      (globMatchOneStar_auto_name file_base file_ext t2)
      (globMatchOneStar_auto_name file_base file_ext t3)
      hc12 (lt_trans hc12 hc23)
  · intro fsx s file_path t hfs
    unfold create_automatic_backup
    rw [if_neg (by simp [hfs])]
    simp only
    rw [if_neg (by simp)]

/-- Witness for `auto_backup_three_calls_spec`: three calls one second
apart. -/
theorem auto_backup_three_calls_spec_witness :
    auto_backup_file_name "file".data ".assets".data ⟨2024, 5, 6, 7, 8, 9⟩ ≠
      auto_backup_file_name "file".data ".assets".data ⟨2024, 5, 6, 7, 8, 10⟩ ∧
    find_initial_backup
      [(auto_backup_file_name "file".data ".assets".data ⟨2024, 5, 6, 7, 8, 9⟩, 100),
       (auto_backup_file_name "file".data ".assets".data ⟨2024, 5, 6, 7, 8, 10⟩, 200),
       (auto_backup_file_name "file".data ".assets".data ⟨2024, 5, 6, 7, 8, 11⟩, 300)]
      "file".data ".assets".data =
      some (auto_backup_file_name "file".data ".assets".data ⟨2024, 5, 6, 7, 8, 9⟩) := by
  have h := auto_backup_three_calls_spec "file".data ".assets".data
    ⟨2024, 5, 6, 7, 8, 9⟩ ⟨2024, 5, 6, 7, 8, 10⟩ ⟨2024, 5, 6, 7, 8, 11⟩
    (by unfold DateTime.Valid; decide) (by unfold DateTime.Valid; decide)
    (by unfold DateTime.Before; decide) (by unfold DateTime.Before; decide)
    100 200 300 (by omega) (by omega)
  exact ⟨h.2.2.1, h.2.2.2.2.2.2.1⟩

/-- C7 counterexample: two `create_automatic_backup` calls for the same
source within the same wall-clock second ("quick succession") observe the
same `strftime("%Y%m%d_%H%M%S")` reading and synthesize the *same* backup
path — the filenames are not distinct, contradicting the claim (the second
`shutil.copy2` silently overwrites the first backup file). -/
theorem auto_backup_same_second_collision_cex :
    (create_automatic_backup (fun _ => true) true ⟨"/b".data, []⟩
      "/g/file.assets".data ⟨2024, 5, 6, 7, 8, 9⟩).1 =
      (create_automatic_backup (fun _ => true) true
        (create_automatic_backup (fun _ => true) true ⟨"/b".data, []⟩
          "/g/file.assets".data ⟨2024, 5, 6, 7, 8, 9⟩).2
        "/g/file.assets".data ⟨2024, 5, 6, 7, 8, 9⟩).1 ∧
    (create_automatic_backup (fun _ => true) true ⟨"/b".data, []⟩
      "/g/file.assets".data ⟨2024, 5, 6, 7, 8, 9⟩).1.isSome = true := by
  decide

/-! ## Theorems for C10 -/

/-- C10: `create_automatic_backup` validates only that the source file
exists — unlike `create_backup`, which additionally rejects sources whose
(lower-cased) extension is not `.assets`/`.bundle`.  For every existing
source path of any extension, when the copy succeeds it returns the
`auto_`-prefixed path inside the backup directory and appends it to the
history keyed by the source path; it returns `none` (with unchanged state)
exactly when the source does not exist or the copy raises; and
`create_backup` on an existing source with an unsupported extension returns
`none` without touching the state, whatever its other inputs. -/
theorem create_automatic_backup_no_ext_check (fsx : List Char → Bool)
    (s : BMState) (file_path : List Char) (t : DateTime) :
    (fsx file_path = true →
      (create_automatic_backup fsx true s file_path t).1 =
        some (ospathJoin s.backup_dir
          (auto_backup_file_name (splitext (basename file_path)).1
            (splitext (basename file_path)).2 t)) ∧
      (create_automatic_backup fsx true s file_path t).2.backup_dir =
        s.backup_dir ∧
      histLookup file_path
          (create_automatic_backup fsx true s file_path t).2.backup_history =
        some ((histLookup file_path s.backup_history).getD [] ++
          [ospathJoin s.backup_dir
            (auto_backup_file_name (splitext (basename file_path)).1
              (splitext (basename file_path)).2 t)])) ∧
    (fsx file_path = false →
      create_automatic_backup fsx true s file_path t = (none, s)) ∧
    (create_automatic_backup fsx false s file_path t =
      (none, s)) ∧
    (∀ (copyOk parentOk ensureOk : Bool) (backupPathArg : Option (List Char)),
      fsx file_path = true → is_supported_file file_path = false →
      create_backup fsx copyOk parentOk ensureOk s file_path backupPathArg t =
        (none, s)) := by
  refine ⟨?_, ?_, ?_, ?_⟩
  · intro hfs
    unfold create_automatic_backup
    rw [if_neg (by simp [hfs])]
    simp only
    rw [if_neg (by simp)]
    exact ⟨rfl, rfl, histLookup_histAppend _ _ _⟩
  · intro hfs
    unfold create_automatic_backup
    rw [if_pos (by simp [hfs])]
  · unfold create_automatic_backup
    by_cases hfs : fsx file_path = true
    · rw [if_neg (by simp [hfs])]
      simp only
      rw [if_pos (by simp)]
    · rw [if_pos (by simpa using hfs)]
  · intro copyOk parentOk ensureOk backupPathArg hfs hsup
    unfold create_backup
    rw [if_neg (by simp [hfs]), if_pos (by simp [hsup])]

/-- Witness for `create_automatic_backup_no_ext_check`: an existing source
with the unsupported extension `.txt` is backed up by
`create_automatic_backup` (and recorded in the history) but rejected by
`create_backup`. -/
theorem create_automatic_backup_no_ext_check_witness :
    (create_automatic_backup (fun _ => true) true ⟨"/b".data, []⟩
      "/g/notes.txt".data ⟨2024, 5, 6, 7, 8, 9⟩).1 =
      some (ospathJoin "/b".data
        (auto_backup_file_name "notes".data ".txt".data ⟨2024, 5, 6, 7, 8, 9⟩)) ∧
    create_backup (fun _ => true) true true true ⟨"/b".data, []⟩
      "/g/notes.txt".data none ⟨2024, 5, 6, 7, 8, 9⟩ = (none, ⟨"/b".data, []⟩) := by
  have h := create_automatic_backup_no_ext_check (fun _ => true) ⟨"/b".data, []⟩
    "/g/notes.txt".data ⟨2024, 5, 6, 7, 8, 9⟩
  constructor
  · rw [(h.1 rfl).1]
    decide
  · exact h.2.2.2 true true true none rfl (by decide)

/-! ## BackupManager.restore_backup (claim C8)

`backup_manager.py` lines 230-293.  The method's first step after the
directory check is `os.path.join(backup_dir, self.BACKUP_INFO_FILE)`, but
`BACKUP_INFO_FILE` is assigned nowhere — not in `__init__`, not as a class
attribute, nowhere else in the repository — so this attribute access raises
`AttributeError` before any manifest is read.  The model carries the
attribute as an `Option` fixed to `none` by the class as written, and the
embedded function returns `Except`: `.error` models an exception escaping
the method (there is no enclosing handler for this line). -/

/-- The value of the `BACKUP_INFO_FILE` attribute on a `BackupManager`
instance: never assigned anywhere in the class or repository. -/
def BACKUP_INFO_FILE_attr : Option (List Char) := none

structure RestoreEnv where
  /-- `os.path.isdir`. -/
  isdir : List Char → Bool
  /-- `os.path.exists`. -/
  fexists : List Char → Bool
  /-- reading+parsing the JSON manifest at a path: `none` = open/parse
  raised, `some orig?` = parsed, with `orig?` the `original_file` field. -/
  manifest : List Char → Option (Option (List Char))
  /-- `shutil.copy2` succeeds. -/
  copyOk : Bool

/-- First history key whose backup list contains the given file (the
target-resolution scan of `restore_backup`). -/
def findOrigByBackup : List (List Char × List (List Char)) → List Char →
    Option (List Char)
  | [], _ => none
  | (orig, bks) :: rest, bf =>
    if bf ∈ bks then some orig else findOrigByBackup rest bf

def restore_backup (env : RestoreEnv)
    (history : List (List Char × List (List Char)))
    (infoFileAttr : Option (List Char)) (backup_dir : List Char)
    (targetArg : Option (List Char)) : Except (List Char) Bool :=
  if ¬ env.isdir backup_dir then .ok false
  else
    match infoFileAttr with
    | none =>
      .error "AttributeError: 'BackupManager' object has no attribute 'BACKUP_INFO_FILE'".data
    | some infoName =>
      if ¬ env.fexists (ospathJoin backup_dir infoName) then .ok false
      else
        match env.manifest (ospathJoin backup_dir infoName) with
        | none => .ok false
        | some none => .ok false
        | some (some original_file) =>
          if ¬ env.fexists (ospathJoin backup_dir
              ("backup".data ++ pathExt original_file)) then .ok false
          else
            match targetArg with
            | some _tp => if env.copyOk then .ok true else .ok false
            | none =>
              match findOrigByBackup history (ospathJoin backup_dir
                  ("backup".data ++ pathExt original_file)) with
              | none => .ok false
              | some _tp => if env.copyOk then .ok true else .ok false

/-- C8 at the failing input: for every environment in which `backup_dir`
exists as a directory, `restore_backup` — with the `BACKUP_INFO_FILE`
attribute as the class actually leaves it (unassigned) — raises
`AttributeError` instead of returning any boolean; only the
directory-missing case returns `False` as the claim describes. -/
theorem restore_backup_raises_attribute_error (env : RestoreEnv)
    (history : List (List Char × List (List Char))) (backup_dir : List Char)
    (targetArg : Option (List Char)) (hdir : env.isdir backup_dir = true) :
    restore_backup env history BACKUP_INFO_FILE_attr backup_dir targetArg =
      .error "AttributeError: 'BackupManager' object has no attribute 'BACKUP_INFO_FILE'".data ∧
    (∀ b : Bool,
      restore_backup env history BACKUP_INFO_FILE_attr backup_dir targetArg ≠
        .ok b) ∧
    (∀ env' : RestoreEnv, ∀ bd : List Char, env'.isdir bd = false →
      restore_backup env' history BACKUP_INFO_FILE_attr bd targetArg =
        .ok false) := by
  have hres : restore_backup env history BACKUP_INFO_FILE_attr backup_dir targetArg =
      .error "AttributeError: 'BackupManager' object has no attribute 'BACKUP_INFO_FILE'".data := by
    unfold restore_backup
    rw [if_neg (by simp [hdir])]
    rfl
  refine ⟨hres, ?_, ?_⟩
  · intro b
    rw [hres]
    intro h
    exact Except.noConfusion h
  · intro env' bd hbd
    unfold restore_backup
    rw [if_pos (by simp [hbd])]

/-- Witness for `restore_backup_raises_attribute_error` at a concrete
environment whose directory check succeeds. -/
theorem restore_backup_raises_attribute_error_witness :
    restore_backup ⟨fun _ => true, fun _ => true, fun _ => none, true⟩ []
      BACKUP_INFO_FILE_attr "/backups/bk1".data none =
      .error "AttributeError: 'BackupManager' object has no attribute 'BACKUP_INFO_FILE'".data := by
  exact (restore_backup_raises_attribute_error
    ⟨fun _ => true, fun _ => true, fun _ => none, true⟩ [] "/backups/bk1".data
    none rfl).1

/-! ## AssetsManager missing-identifier exclusion (claim C2)

`assets_manager.py` lines 123-215.  A session state holds the
`texture_objects` dict (modelled as an insertion-ordered list of object
handles; a dict never holds an id twice, hypothesis `NodupIds`), the
`texture_paths` dict, and the `missing_texture_ids` set (modelled as a
list).  `obj.read()` is the handle's `readResult` oracle (`none` = the read
raises).  Each getter skips identifiers already in the missing set and adds
to it any identifier whose read fails, never removing entries — only a
reload (`_parse_textures`) clears the set, which starts a new session. -/

structure TexData where
  m_Name : List Char
  m_Width : Int
  m_Height : Int
  m_TextureFormat : List Char
deriving DecidableEq, Repr

structure TexObj where
  path_id : Int
  readResult : Option TexData
deriving DecidableEq, Repr

structure TexInfo where
  id : Int
  name : List Char
  width : Int
  height : Int
  format : List Char
  path : Option (List Char)
deriving DecidableEq, Repr

structure AMState where
  texture_objects : List TexObj
  texture_paths : List (List Char × TexObj)
  missing_texture_ids : List Int
deriving DecidableEq, Repr

/-- `AssetsManager._find_path_for_object`: first container path whose
object shares the identifier. -/
def find_path_for_object (paths : List (List Char × TexObj)) (obj : TexObj) :
    Option (List Char) :=
  match paths with
  | [] => none
  | (p, o) :: rest =>
    if o.path_id = obj.path_id then some p else find_path_for_object rest obj

/-- The loop body of `get_texture_list`, with the accumulated result list
and the (mutable) missing set threaded through. -/
def gtlLoop (paths : List (List Char × TexObj)) :
    List TexObj → List TexInfo → List Int → List TexInfo × List Int
  | [], acc, miss => (acc, miss)
  | obj :: rest, acc, miss =>
    if obj.path_id ∈ miss then gtlLoop paths rest acc miss
    else
      match obj.readResult with
      | some d =>
        gtlLoop paths rest
          (acc ++ [⟨obj.path_id, d.m_Name, d.m_Width, d.m_Height,
            d.m_TextureFormat, find_path_for_object paths obj⟩]) miss
      | none => gtlLoop paths rest acc (miss ++ [obj.path_id])

/-- `AssetsManager.get_texture_list`. -/
def get_texture_list (s : AMState) : List TexInfo × AMState :=
  ((gtlLoop s.texture_paths s.texture_objects [] s.missing_texture_ids).1,
    ⟨s.texture_objects, s.texture_paths,
      (gtlLoop s.texture_paths s.texture_objects [] s.missing_texture_ids).2⟩)

/-- `AssetsManager.get_texture_by_id`. -/
def get_texture_by_id (s : AMState) (obj_id : Int) :
    Option (TexObj × TexData) × AMState :=
  match s.texture_objects.find? (fun o => o.path_id == obj_id) with
  | none => (none, s)
  | some obj =>
    if obj_id ∈ s.missing_texture_ids then (none, s)
    else
      match obj.readResult with
      | some d => (some (obj, d), s)
      | none =>
        (none, ⟨s.texture_objects, s.texture_paths,
          s.missing_texture_ids ++ [obj_id]⟩)

/-- The loop of `get_texture_by_name`: returns on the first name match and
stops scanning (so later identifiers are not read). -/
def gtbnLoop (name : List Char) :
    List TexObj → List Int → Option (TexObj × TexData) × List Int
  | [], miss => (none, miss)
  | obj :: rest, miss =>
    if obj.path_id ∈ miss then gtbnLoop name rest miss
    else
      match obj.readResult with
      | none => gtbnLoop name rest (miss ++ [obj.path_id])
      | some d =>
        if d.m_Name = name then (some (obj, d), miss)
        else gtbnLoop name rest miss

/-- `AssetsManager.get_texture_by_name`. -/
def get_texture_by_name (s : AMState) (name : List Char) :
    Option (TexObj × TexData) × AMState :=
  ((gtbnLoop name s.texture_objects s.missing_texture_ids).1,
    ⟨s.texture_objects, s.texture_paths,
      (gtbnLoop name s.texture_objects s.missing_texture_ids).2⟩)

/-- One public read operation of the Assets Manager. -/
inductive AmOp where
  | list
  | byId (obj_id : Int)
  | byName (name : List Char)

/-- The identifiers a getter result hands to the caller. -/
def retIds : Option (TexObj × TexData) → List Int
  | some (obj, _) => [obj.path_id]
  | none => []

/-- Run one operation; the second component lists the identifiers the
operation returned to its caller (list entries, or the identifier of the
returned handle). -/
def runOp (s : AMState) : AmOp → AMState × List Int
  | .list => ((get_texture_list s).2, (get_texture_list s).1.map (·.id))
  | .byId obj_id =>
    ((get_texture_by_id s obj_id).2, retIds (get_texture_by_id s obj_id).1)
  | .byName name =>
    ((get_texture_by_name s name).2, retIds (get_texture_by_name s name).1)

/-- Run a sequence of operations, collecting every returned identifier. -/
def runOps (s : AMState) : List AmOp → AMState × List Int
  | [] => (s, [])
  | op :: ops =>
    ((runOps (runOp s op).1 ops).1,
      (runOp s op).2 ++ (runOps (runOp s op).1 ops).2)

/-- The `texture_objects` dict holds each identifier at most once. -/
def NodupIds (s : AMState) : Prop := (s.texture_objects.map (·.path_id)).Nodup

theorem gtlLoop_missing_mono (paths : List (List Char × TexObj)) :
    ∀ (objs : List TexObj) (acc : List TexInfo) (miss : List Int) (oid : Int),
      oid ∈ miss → oid ∈ (gtlLoop paths objs acc miss).2 := by
  intro objs
  induction objs with
  | nil =>
    intro acc miss oid h
    exact h
  | cons obj rest ih =>
    intro acc miss oid h
    unfold gtlLoop
    by_cases hm : obj.path_id ∈ miss
    · rw [if_pos hm]
      exact ih _ _ _ h
    · rw [if_neg hm]
      match obj.readResult with
      | some d => exact ih _ _ _ h
      | none => exact ih _ _ _ (List.mem_append_left _ h)

theorem gtlLoop_out_disjoint (paths : List (List Char × TexObj)) :
    ∀ (objs : List TexObj) (acc : List TexInfo) (miss : List Int),
      (objs.map (·.path_id)).Nodup →
      (∀ a ∈ acc, a.id ∉ miss ∧ a.id ∉ objs.map (·.path_id)) →
      ∀ oid ∈ (gtlLoop paths objs acc miss).2,
        oid ∉ (gtlLoop paths objs acc miss).1.map (·.id) := by
  intro objs
  induction objs with
  | nil =>
    intro acc miss _ hacc oid hmem hout
    obtain ⟨a, ha, haid⟩ := List.mem_map.mp hout
    exact (hacc a ha).1 (haid ▸ hmem)
  | cons obj rest ih =>
    intro acc miss hnd hacc
    rw [List.map_cons, List.nodup_cons] at hnd
    unfold gtlLoop
    by_cases hm : obj.path_id ∈ miss
    · rw [if_pos hm]
      exact ih _ _ hnd.2 (fun a ha => ⟨(hacc a ha).1,
        fun hr => (hacc a ha).2 (List.mem_cons_of_mem _ hr)⟩)
    · rw [if_neg hm]
      cases hd : obj.readResult with
      | some d =>
        simp only [hd]
        refine ih _ _ hnd.2 (fun a ha => ?_)
        rcases List.mem_append.mp ha with ha' | ha'
        · exact ⟨(hacc a ha').1,
            fun hr => (hacc a ha').2 (List.mem_cons_of_mem _ hr)⟩
        · rcases List.mem_singleton.mp ha' with rfl
          exact ⟨hm, hnd.1⟩
      | none =>
        simp only [hd]
        refine ih _ _ hnd.2 (fun a ha => ?_)
        refine ⟨fun hmem => ?_, fun hr => (hacc a ha).2 (List.mem_cons_of_mem _ hr)⟩
        rcases List.mem_append.mp hmem with h' | h'
        · exact (hacc a ha).1 h'
        · rcases List.mem_singleton.mp h' with heq
          exact (hacc a ha).2 (heq ▸ List.mem_cons_self _ _)

theorem gtbnLoop_missing_mono (name : List Char) :
    ∀ (objs : List TexObj) (miss : List Int) (oid : Int),
      oid ∈ miss → oid ∈ (gtbnLoop name objs miss).2 := by
  intro objs
  induction objs with
  | nil =>
    intro miss oid h
    exact h
  | cons obj rest ih =>
    intro miss oid h
    unfold gtbnLoop
    by_cases hm : obj.path_id ∈ miss
    · rw [if_pos hm]
      exact ih _ _ h
    · rw [if_neg hm]
      cases hd : obj.readResult with
      | none =>
        simp only [hd]
        exact ih _ _ (List.mem_append_left _ h)
      | some d =>
        simp only [hd]
        by_cases hn : d.m_Name = name
        · rw [if_pos hn]
          exact h
        · rw [if_neg hn]
          exact ih _ _ h

theorem gtbnLoop_ret_not_missing (name : List Char) :
    ∀ (objs : List TexObj) (miss : List Int) (o : TexObj) (d : TexData),
      (gtbnLoop name objs miss).1 = some (o, d) →
      o.path_id ∉ (gtbnLoop name objs miss).2 := by
  intro objs
  induction objs with
  | nil =>
    intro miss o d h
    exact absurd h (by simp [gtbnLoop])
  | cons obj rest ih =>
    intro miss o d h
    unfold gtbnLoop at h ⊢
    by_cases hm : obj.path_id ∈ miss
    · rw [if_pos hm] at h ⊢
      exact ih _ _ _ h
    · rw [if_neg hm] at h ⊢
      cases hd : obj.readResult with
      | none =>
        simp only [hd] at h ⊢
        exact ih _ _ _ h
      | some d' =>
        simp only [hd] at h ⊢
        by_cases hn : d'.m_Name = name
        · rw [if_pos hn] at h ⊢
          have h' : (some (obj, d') : Option (TexObj × TexData)) = some (o, d) := h
          injection h' with h'
          injection h' with h1 _
          show o.path_id ∉ miss
          rw [← h1]
          exact hm
        · rw [if_neg hn] at h ⊢
          exact ih _ _ _ h

theorem runOp_texture_objects (s : AMState) (op : AmOp) :
    (runOp s op).1.texture_objects = s.texture_objects := by
  match op with
  | .list => rfl
  | .byId obj_id =>
    show (get_texture_by_id s obj_id).2.texture_objects = _
    unfold get_texture_by_id
    cases hfind : s.texture_objects.find? (fun o => o.path_id == obj_id) with
    | none => simp [hfind]
    | some obj =>
      simp only [hfind]
      by_cases hm : obj_id ∈ s.missing_texture_ids
      · rw [if_pos hm]
      · rw [if_neg hm]
        cases hd : obj.readResult with
        | some d => simp [hd]
        | none => simp [hd]
  | .byName name => rfl

theorem runOp_missing_mono (s : AMState) (op : AmOp) (oid : Int)
    (h : oid ∈ s.missing_texture_ids) :
    oid ∈ (runOp s op).1.missing_texture_ids := by
  match op with
  | .list => exact gtlLoop_missing_mono _ _ _ _ _ h
  | .byId obj_id =>
    show oid ∈ (get_texture_by_id s obj_id).2.missing_texture_ids
    unfold get_texture_by_id
    cases hfind : s.texture_objects.find? (fun o => o.path_id == obj_id) with
    | none =>
      simp only [hfind]
      exact h
    | some obj =>
      simp only [hfind]
      by_cases hm : obj_id ∈ s.missing_texture_ids
      · rw [if_pos hm]
        exact h
      · rw [if_neg hm]
        cases hd : obj.readResult with
        | some d =>
          simp only [hd]
          exact h
        | none =>
          simp only [hd]
          exact List.mem_append_left _ h
  | .byName name => exact gtbnLoop_missing_mono _ _ _ _ h

theorem runOp_missing_not_returned (s : AMState) (op : AmOp) (oid : Int)
    (hnd : NodupIds s) (h : oid ∈ (runOp s op).1.missing_texture_ids) :
    oid ∉ (runOp s op).2 := by
  match op with
  | .list =>
    have hnd' : (s.texture_objects.map (·.path_id)).Nodup := hnd
    exact gtlLoop_out_disjoint s.texture_paths s.texture_objects []
      s.missing_texture_ids hnd' (by simp) oid h
  | .byId obj_id =>
    show oid ∉ retIds (get_texture_by_id s obj_id).1
    have h' : oid ∈ (get_texture_by_id s obj_id).2.missing_texture_ids := h
    unfold get_texture_by_id at h' ⊢
    cases hfind : s.texture_objects.find? (fun o => o.path_id == obj_id) with
    | none =>
      simp [hfind, retIds]
    | some obj =>
      simp only [hfind] at h' ⊢
      by_cases hm : obj_id ∈ s.missing_texture_ids
      · rw [if_pos hm] at h' ⊢
        simp [retIds]
      · rw [if_neg hm] at h' ⊢
        have hobj : obj.path_id = obj_id := by
          have := List.find?_some hfind
          simpa using this
        cases hd : obj.readResult with
        | some d =>
          simp only [hd] at h' ⊢
          simp only [retIds, List.mem_singleton]
          intro heq
          rw [heq, hobj] at h'
          exact hm h'
        | none =>
          simp [hd, retIds]
  | .byName name =>
    show oid ∉ retIds (get_texture_by_name s name).1
    have h' : oid ∈ (gtbnLoop name s.texture_objects s.missing_texture_ids).2 := h
    cases hret : (gtbnLoop name s.texture_objects s.missing_texture_ids).1 with
    | none =>
      simp [get_texture_by_name, hret, retIds]
    | some od =>
      have hnm := gtbnLoop_ret_not_missing name s.texture_objects
        s.missing_texture_ids od.1 od.2 (by rw [hret])
      simp only [get_texture_by_name, hret, retIds, List.mem_singleton]
      intro heq
      exact hnm (heq ▸ h')

theorem runOp_nodup (s : AMState) (op : AmOp) (hnd : NodupIds s) :
    NodupIds (runOp s op).1 := by
  unfold NodupIds at *
  rw [runOp_texture_objects]
  exact hnd

/-- C2: every identifier in the Assets Manager's missing-identifier set —
whether put there during parsing or by a later read failure — stays in the
set across any further sequence of `get_texture_list` /
`get_texture_by_id` / `get_texture_by_name` calls and is never among the
identifiers those calls return (list entries or successfully returned
handles); moreover an identifier that is in the missing set right after any
single call (including one the call itself just added) was not returned by
that call. -/
theorem missing_ids_never_returned :
    (∀ (s : AMState) (ops : List AmOp) (oid : Int), NodupIds s →
      oid ∈ s.missing_texture_ids →
      oid ∈ (runOps s ops).1.missing_texture_ids ∧ oid ∉ (runOps s ops).2) ∧
    (∀ (s : AMState) (op : AmOp) (oid : Int), NodupIds s →
      oid ∈ (runOp s op).1.missing_texture_ids → oid ∉ (runOp s op).2) := by
  constructor
  · intro s ops
    induction ops generalizing s with
    | nil =>
      intro oid _ h
      exact ⟨h, by simp [runOps]⟩
    | cons op rest ih =>
      intro oid hnd h
      have h1 : oid ∈ (runOp s op).1.missing_texture_ids :=
        runOp_missing_mono s op oid h
      have hnd1 : NodupIds (runOp s op).1 := runOp_nodup s op hnd
      have hrec := ih (runOp s op).1 oid hnd1 h1
      refine ⟨hrec.1, ?_⟩
      unfold runOps
      rw [List.mem_append]
      rintro (hc | hc)
      · exact runOp_missing_not_returned s op oid hnd h1 hc
      · exact hrec.2 hc
  · exact runOp_missing_not_returned

/-- Witness for `missing_ids_never_returned`: a session whose object 5 is
already missing; a list call, a by-id call for 5 and a by-name call all
avoid returning id 5 even though the object is present in the dict and its
read succeeds. -/
theorem missing_ids_never_returned_witness :
    (runOps
      ⟨[⟨5, some ⟨"t".data, 4, 4, "RGBA32".data⟩⟩,
        ⟨6, some ⟨"u".data, 8, 8, "RGBA32".data⟩⟩], [], [5]⟩
      [AmOp.list, AmOp.byId 5, AmOp.byName "t".data]).2 = [6] ∧
    (5 : Int) ∉ (runOps
      ⟨[⟨5, some ⟨"t".data, 4, 4, "RGBA32".data⟩⟩,
        ⟨6, some ⟨"u".data, 8, 8, "RGBA32".data⟩⟩], [], [5]⟩
      [AmOp.list, AmOp.byId 5, AmOp.byName "t".data]).2 := by
  constructor
  · decide
  · exact ((missing_ids_never_returned.1
      ⟨[⟨5, some ⟨"t".data, 4, 4, "RGBA32".data⟩⟩,
        ⟨6, some ⟨"u".data, 8, 8, "RGBA32".data⟩⟩], [], [5]⟩
      [AmOp.list, AmOp.byId 5, AmOp.byName "t".data] 5
      (by unfold NodupIds; decide) (by decide)).2)

end SPT
